import Mathlib

/-!
Shallow embedding of `verifier.py`, a Hilbert-style propositional proof
verifier, together with theorems settling the specification claims.

Formulas in the source are dynamic tagged values (a bare single-uppercase
string for a variable, a 2-tuple `('~', f)` for negation, a 3-tuple
`('->', l, r)` for implication); the parser only ever constructs these three
shapes, so the embedding uses the corresponding closed inductive type.
Text is modelled as `List Char`; the two regular expressions used by
`verify_proof` are translated into explicit scanning functions.
-/

namespace PropProof

/-- Closed term representation of propositional formulas: exactly the shapes
the source parser constructs (variable / negation / implication). -/
inductive Formula where
  | var : Char → Formula
  | neg : Formula → Formula
  | imp : Formula → Formula → Formula
deriving DecidableEq

/-- `is_variable` from the source: the value is a (single uppercase letter)
variable.  On the closed term type the uppercase constraint is carried by
the constructor's use sites; the shape test is the discriminator. -/
def is_variable : Formula → Bool
  | .var _ => true
  | _ => false

/-- `is_negation` from the source. -/
def is_negation : Formula → Bool
  | .neg _ => true
  | _ => false

/-- `is_implication` from the source. -/
def is_implication : Formula → Bool
  | .imp _ _ => true
  | _ => false

/-- The three `raise ParserError(...)` sites of `parse`, each carrying the
(stripped) offending substring exactly as the source interpolates it. -/
inductive ParserError where
  | mismatchedParen : List Char → ParserError
  | malformedImplication : List Char → ParserError
  | invalidSyntax : List Char → ParserError
deriving DecidableEq

/-- Python whitespace as recognised by `str.strip` and `\s` (ASCII range). -/
def isPySpace (c : Char) : Bool :=
  c = ' ' || c = '\t' || c = '\n' || c = '\r' || c = Char.ofNat 11 || c = Char.ofNat 12

/-- Python `str.strip()`: drop leading and trailing whitespace. -/
def pstrip (s : List Char) : List Char :=
  ((s.dropWhile isPySpace).reverse.dropWhile isPySpace).reverse

/-- Result of the balance scan over the interior of a parenthesised formula:
either a mismatched closing parenthesis was hit, or the first depth-zero
`->` was located (interior index of the `-`), or no split exists. -/
inductive ScanResult where
  | mismatched : ScanResult
  | split : Nat → ScanResult
  | nosplit : ScanResult
deriving DecidableEq

/-- The scanning loop of `parse` over `formula_string[1:-1]`: tracks the
parenthesis balance; raises on a negative balance; stops at the first `-`
at depth zero whose following character is `>`.  The source guard
`i + 2 < len(formula_string)` is omitted: for an interior index `i` it reads
`i + 2 ≤ len - 1 < len` and is always true, and at the last interior
position the looked-at character is the closing `)`, never `>`, which the
`rest.head?` formulation reproduces. -/
def scanSplit : List Char → Nat → Int → ScanResult
  | [], _, _ => .nosplit
  | c :: rest, i, balance =>
    if c = '(' then scanSplit rest (i + 1) (balance + 1)
    else if c = ')' then
      if balance - 1 < 0 then .mismatched else scanSplit rest (i + 1) (balance - 1)
    else if c = '-' ∧ rest.head? = some '>' ∧ balance = 0 then .split i
    else scanSplit rest (i + 1) balance

/-- `parse` from the source, with an explicit structural fuel so that the
definition computes by kernel reduction; every recursive call of the source
is on a strictly shorter string, so `length + 1` fuel (supplied by `parse`)
makes the fuel-exhaustion branch unreachable.  The split point found at
interior index `i` yields `left = interior.take i` (the source's
`formula_string[1:split_index]`) and `right = interior.drop (i + 3)` (the
source's `formula_string[split_index + 3:-1]`, which skips one character
past the two-character arrow). -/
def parseAux : Nat → List Char → Except ParserError Formula
  | 0, s => .error (.invalidSyntax (pstrip s))
  | fuel + 1, s =>
    let t := pstrip s
    if isVarText t then .ok (.var (t.headD 'A'))
    else if t.head? = some '~' then
      match parseAux fuel t.tail with
      | .ok f => .ok (.neg f)
      | .error e => .error e
    else if t.head? = some '(' ∧ t.getLast? = some ')' then
      let interior := (t.drop 1).dropLast
      match scanSplit interior 0 0 with
      | .mismatched => .error (.mismatchedParen t)
      | .nosplit => .error (.malformedImplication t)
      | .split i =>
        let left := interior.take i
        let right := interior.drop (i + 3)
        if left = [] ∨ right = [] then .error (.malformedImplication t)
        else
          match parseAux fuel left with
          | .error e => .error e
          | .ok l =>
            match parseAux fuel right with
            | .error e => .error e
            | .ok r => .ok (.imp l r)
    else .error (.invalidSyntax t)
where
  /-- The source's `is_variable` applied to a string: `re.match("^[A-Z]$", s)`. -/
  isVarText (t : List Char) : Bool :=
    match t with
    | [c] => 'A' ≤ c && c ≤ 'Z'
    | _ => false

/-- `parse(formula_string)` of the source. -/
def parse (s : List Char) : Except ParserError Formula :=
  parseAux (s.length + 1) s

/-- `is_axiom1` from the source: guards `is_implication(formula)` and
`is_implication(formula[2])`, then compares `formula[1]` with
`formula[2][2]`. -/
def is_axiom1 : Formula → Bool
  | .imp a (.imp _ a2) => decide (a = a2)
  | _ => false

/-- `is_axiom2` from the source: six `is_implication` guards (the pattern),
then `formula[2][1] == ('->', A, B) and formula[2][2] == ('->', A, C)` with
`A, B, C` read off the left operand. -/
def is_axiom2 : Formula → Bool
  | .imp (.imp a (.imp b c)) (.imp (.imp p q) (.imp r s)) =>
      decide (Formula.imp p q = Formula.imp a b) && decide (Formula.imp r s = Formula.imp a c)
  | _ => false

/-- `is_axiom3` from the source: guards that the top is an implication, its
left operand an implication of two negations, its right operand an
implication; then `formula[1] == ('->', ('~', B), ('~', A))` with `A, B`
read off the right operand. -/
def is_axiom3 : Formula → Bool
  | .imp (.imp (.neg nb) (.neg na)) (.imp a b) =>
      decide (Formula.imp (.neg nb) (.neg na) = Formula.imp (.neg b) (.neg a))
  | _ => false

/-- Convert a run of decimal digit characters to the integer Python's
`int` produces on the regex capture. -/
def digitsToNat (ds : List Char) : Nat :=
  ds.foldl (fun n c => n * 10 + (c.toNat - ('0').toNat)) 0

/-- `re.match(r"^\s*(\d+)\.\s*(.+)", line_text)` of the source, applied by
`verify_proof` only to already-stripped lines: skip leading whitespace, take
the maximal digit run (nonempty, else no match), require a literal `.`,
skip whitespace, and capture the nonempty remainder.  On a stripped line
the remainder after the whitespace run is empty exactly when nothing at all
follows the dot, which is when the regex fails, so the greedy `\s*` never
has to backtrack into the `(.+)` capture here. -/
def lineNumMatch (s : List Char) : Option (Nat × List Char) :=
  if (s.dropWhile isPySpace).takeWhile Char.isDigit = [] then none
  else
    match (s.dropWhile isPySpace).dropWhile Char.isDigit with
    | '.' :: r2 =>
      if r2.dropWhile isPySpace = [] then none
      else some (digitsToNat ((s.dropWhile isPySpace).takeWhile Char.isDigit),
          r2.dropWhile isPySpace)
    | _ => none

/-- The shared front of the source's two `MP` regexes (`MP\s*\d+,\d+` inside
the justification search, `MP\s*(\d+),(\d+)` in the dispatch): literal `MP`,
optional whitespace, a nonempty digit run, a comma, and a second nonempty
digit run; returns the first digit run and everything after the comma. -/
def mpScan (t : List Char) : Option (List Char × List Char) :=
  match t with
  | 'M' :: 'P' :: rest =>
    if (rest.dropWhile isPySpace).takeWhile Char.isDigit = [] then none
    else
      match (rest.dropWhile isPySpace).dropWhile Char.isDigit with
      | ',' :: r2 =>
        if r2.takeWhile Char.isDigit = [] then none
        else some ((rest.dropWhile isPySpace).takeWhile Char.isDigit, r2)
      | _ => none
  | _ => none

/-- The `MP\s*\d+,\d+` alternative of the `$`-anchored justification
pattern: the `mpScan` shape with the second digit run reaching the end of
the string. -/
def mpShape (t : List Char) : Bool :=
  match mpScan t with
  | some (_, r2) => decide (r2.dropWhile Char.isDigit = [])
  | none => false

/-- The alternation `(Premise|AX[123]|MP\s*\d+,\d+)` matched against a whole
string (the justification pattern is `$`-anchored, so the alternative must
reach the end). -/
def matchesJustCore (t : List Char) : Bool :=
  t = ("Premise").toList || t = ("AX1").toList || t = ("AX2").toList ||
  t = ("AX3").toList || mpShape t

/-- A whole-string match of `\s+(Premise|AX[123]|MP\s*\d+,\d+)$`: a nonempty
whitespace run followed by one of the alternatives.  No alternative begins
with whitespace, so the greedy `\s+` consumes exactly the maximal
whitespace prefix. -/
def suffixJust (t : List Char) : Bool :=
  t.takeWhile isPySpace ≠ [] && matchesJustCore (t.dropWhile isPySpace)

/-- `re.search` of the `$`-anchored justification pattern: the leftmost
start position whose suffix matches, returned together with the stripped
match (the alternatives never carry surrounding whitespace, so
`group(0).strip()` is the suffix with its whitespace prefix removed). -/
def justSearchAux : List Char → Nat → Option (Nat × List Char)
  | [], _ => none
  | c :: rest, i =>
    if suffixJust (c :: rest) then some (i, (c :: rest).dropWhile isPySpace)
    else justSearchAux rest (i + 1)

/-- Search `rest_of_line` for the justification suffix; returns the match
start (used to cut off the formula text) and the stripped justification. -/
def justSearch (s : List Char) : Option (Nat × List Char) :=
  justSearchAux s 0

/-- `re.match(r"MP\s*(\d+),(\d+)", justification)` of the source: a prefix
match (no end anchor) converting the two captured digit runs. -/
def parseMPArgs (t : List Char) : Option (Nat × Nat) :=
  match mpScan t with
  | some (d1, r2) => some (digitsToNat d1, digitsToNat (r2.takeWhile Char.isDigit))
  | none => none

/-- The `error_detail` strings `verify_proof` prints for an invalid
justification, as structured values. -/
inductive ErrorDetail where
  | ax1Mismatch : ErrorDetail
  | ax2Mismatch : ErrorDetail
  | ax3Mismatch : ErrorDetail
  | mpFutureReference : Nat → Nat → ErrorDetail
  | mpMissingLine : Nat → Nat → ErrorDetail
  | mpNonConsequence : Nat → Nat → ErrorDetail
  | blankDetail : ErrorDetail
deriving DecidableEq

/-- The `FAILED:` messages of `verify_proof`, as structured values.  Only
`invalidLineFormat` is printed without a line number (none is available on
that path); the constructor records the offending stripped line text the
message interpolates. -/
inductive Reason where
  | invalidLineFormat : List Char → Reason
  | malformedJustification : List Char → Reason
  | syntaxError : ParserError → Reason
  | invalidJustification : List Char → ErrorDetail → Reason
deriving DecidableEq

/-- The `proven_formulas` dictionary: a line-number-indexed partial map. -/
def Proven : Type := Nat → Option Formula

/-- The empty dictionary `{}`. -/
def emptyProven : Proven := fun _ => none

/-- `proven_formulas[line_num] = current_formula`: Python dict assignment,
which overwrites an existing binding for the same key. -/
def updateProven (m : Proven) (n : Nat) (f : Formula) : Proven :=
  fun k => if k = n then some f else m k

/-- `is_implication(g) and g[1] == ante and g[2] == concl`: `g` is an
implication from `ante` to `concl`. -/
def consequenceOf (g ante concl : Formula) : Bool :=
  match g with
  | .imp a b => decide (a = ante) && decide (b = concl)
  | _ => false

/-- The Modus Ponens validation of `verify_proof` (the `MP` branch): the
future-reference test, the membership test, and the symmetric implication
test; `none` means the line is valid, `some d` carries the error detail.
The source indexes `proven_formulas[i]` only after the membership test, so
the guarded lookups here use `Option.getD` with an arbitrary default that
is never read. -/
def mpCheck (proven : Proven) (line_num i j : Nat) (current : Formula) : Option ErrorDetail :=
  if i ≥ line_num ∨ j ≥ line_num then some (.mpFutureReference i j)
  else if proven i = none ∨ proven j = none then some (.mpMissingLine i j)
  else if consequenceOf ((proven j).getD (.var 'A')) ((proven i).getD (.var 'A')) current
      || consequenceOf ((proven i).getD (.var 'A')) ((proven j).getD (.var 'A')) current then
    none
  else some (.mpNonConsequence i j)

/-- Outcome of processing one raw line in the `Running` state. -/
inductive StepResult where
  | skip : StepResult
  | ok : Nat → Formula → StepResult
  | fail : Option Nat → Reason → StepResult
  | crashed : StepResult
deriving DecidableEq

/-- The justification dispatch of `verify_proof` (the `is_valid` /
`error_detail` chain): equality tests against the four fixed tokens, then
`startswith("MP")` with re-extraction of the cited pair.  The source calls
`.groups()` on that re-match unconditionally; a failing match there would
raise `AttributeError`, modelled by `StepResult.crashed` (proved
unreachable).  The trailing branch mirrors the source's fall-through where
`is_valid` stays false with an empty detail. -/
def dispatchJust (proven : Proven) (line_num : Nat) (formula_str just : List Char)
    (cur : Formula) : StepResult :=
  if just = ("Premise").toList then .ok line_num cur
  else if just = ("AX1").toList then
    if is_axiom1 cur then .ok line_num cur
    else .fail (some line_num) (.invalidJustification formula_str .ax1Mismatch)
  else if just = ("AX2").toList then
    if is_axiom2 cur then .ok line_num cur
    else .fail (some line_num) (.invalidJustification formula_str .ax2Mismatch)
  else if just = ("AX3").toList then
    if is_axiom3 cur then .ok line_num cur
    else .fail (some line_num) (.invalidJustification formula_str .ax3Mismatch)
  else if just.take 2 = ("MP").toList then
    match parseMPArgs just with
    | none => .crashed
    | some (i, j) =>
      match mpCheck proven line_num i j cur with
      | none => .ok line_num cur
      | some d => .fail (some line_num) (.invalidJustification formula_str d)
  else .fail (some line_num) (.invalidJustification formula_str .blankDetail)

/-- One iteration of the `for line_text in proof_content` loop: strip,
skip blanks and `#` comments, extract the line number, locate the
justification suffix, parse the formula text, and dispatch. -/
def processLine (proven : Proven) (raw : List Char) : StepResult :=
  if pstrip raw = [] ∨ (pstrip raw).head? = some '#' then .skip
  else
    match lineNumMatch (pstrip raw) with
    | none => .fail none (.invalidLineFormat (pstrip raw))
    | some (line_num, rest) =>
      match justSearch rest with
      | none => .fail (some line_num) (.malformedJustification (pstrip raw))
      | some (start, just) =>
        match parse (pstrip (rest.take start)) with
        | .error e => .fail (some line_num) (.syntaxError e)
        | .ok cur => dispatchJust proven line_num (pstrip (rest.take start)) just cur

/-- Terminal outcome of `verify_proof` for one proof: the `VALID` print, a
`FAILED` print, or the modelled interpreter crash (proved unreachable). -/
inductive Verdict where
  | valid : Verdict
  | failed : Option Nat → Reason → Verdict
  | crashed : Verdict
deriving DecidableEq

/-- The line loop of `verify_proof`, threading `proven_formulas`; returns
the mapping at the moment the loop stops together with the verdict. -/
def runProof : Proven → List (List Char) → Proven × Verdict
  | proven, [] => (proven, .valid)
  | proven, l :: rest =>
    match processLine proven l with
    | .skip => runProof proven rest
    | .ok n f => runProof (updateProven proven n f) rest
    | .fail o r => (proven, .failed o r)
    | .crashed => (proven, .crashed)

/-- `verify_proof(proof_content, proof_name)` of the source: the verdict it
prints for the given ordered lines (the proof name only decorates the
banner). -/
def verify_proof (proof_content : List (List Char)) : Verdict :=
  (runProof emptyProven proof_content).2

example : verify_proof [("1. A Premise").toList,
    ("2. (A -> (B -> A)) AX1").toList,
    ("3. (B -> A) MP 1,2").toList] = .valid := rfl
example : verify_proof [("0. A Premise").toList] = .valid := rfl
example : verify_proof [("1. A ClaimsTruth").toList]
    = .failed (some 1) (.malformedJustification (("1. A ClaimsTruth").toList)) := rfl
example : verify_proof [("foo").toList]
    = .failed none (.invalidLineFormat (("foo").toList)) := rfl
example : verify_proof [("1. Premise").toList]
    = .failed (some 1) (.malformedJustification (("1. Premise").toList)) := rfl
example : verify_proof [("1. A Premise").toList, ("2. (A -> B) Premise").toList,
    ("3. B MP 1,2").toList] = .valid := rfl
example : verify_proof [("1. A Premise").toList, ("2. (A -> B) Premise").toList,
    ("3. B MP 2,1").toList] = .valid := rfl
example : (runProof emptyProven [("1. A Premise").toList, ("1. B Premise").toList]).1 1
    = some (.var 'B') := rfl

lemma consequenceOf_eq_true_iff (g ante concl : Formula) :
    consequenceOf g ante concl = true ↔ g = .imp ante concl := by
  cases g <;> simp [consequenceOf]

lemma mpCheck_none_iff (proven : Proven) (line_num i j : Nat) (cur : Formula) :
    mpCheck proven line_num i j cur = none ↔
      ∃ f_i f_j, i < line_num ∧ j < line_num ∧
        proven i = some f_i ∧ proven j = some f_j ∧
        (f_j = .imp f_i cur ∨ f_i = .imp f_j cur) := by
  unfold mpCheck
  by_cases hfut : i ≥ line_num ∨ j ≥ line_num
  · rw [if_pos hfut]
    simp only [reduceCtorEq, false_iff]
    rintro ⟨f_i, f_j, hi, hj, -⟩
    omega
  · rw [if_neg hfut]
    push_neg at hfut
    obtain ⟨hi, hj⟩ := hfut
    by_cases hmiss : proven i = none ∨ proven j = none
    · rw [if_pos hmiss]
      simp only [reduceCtorEq, false_iff]
      rintro ⟨f_i, f_j, -, -, hfi, hfj, -⟩
      rcases hmiss with h | h
      · rw [h] at hfi; cases hfi
      · rw [h] at hfj; cases hfj
    · push_neg at hmiss
      obtain ⟨hpi0, hpj0⟩ := hmiss
      obtain ⟨f_i, hfi⟩ := Option.ne_none_iff_exists'.mp hpi0
      obtain ⟨f_j, hfj⟩ := Option.ne_none_iff_exists'.mp hpj0
      rw [if_neg (by rw [hfi, hfj]; simp : ¬(proven i = none ∨ proven j = none))]
      rw [hfi, hfj]
      simp only [Option.getD_some]
      by_cases hc : (consequenceOf f_j f_i cur || consequenceOf f_i f_j cur) = true
      · rw [if_pos hc]
        simp only [true_iff]
        rcases Bool.or_eq_true_iff.mp hc with h | h
        · exact ⟨f_i, f_j, hi, hj, rfl, rfl,
            Or.inl ((consequenceOf_eq_true_iff _ _ _).mp h)⟩
        · exact ⟨f_i, f_j, hi, hj, rfl, rfl,
            Or.inr ((consequenceOf_eq_true_iff _ _ _).mp h)⟩
      · rw [if_neg hc]
        simp only [reduceCtorEq, false_iff]
        rintro ⟨g_i, g_j, -, -, hgi, hgj, hcons⟩
        rw [Option.some_inj] at hgi hgj
        subst hgi
        subst hgj
        apply hc
        rcases hcons with h | h
        · exact Bool.or_eq_true_iff.mpr
            (Or.inl ((consequenceOf_eq_true_iff _ _ _).mpr h))
        · exact Bool.or_eq_true_iff.mpr
            (Or.inr ((consequenceOf_eq_true_iff _ _ _).mpr h))

/-- Claim C1: a proof line justified by `ModusPonens(i, j)` processed while
the verifier is running is valid (the dispatch records it as proven) if and
only if `i` and `j` are both strictly below the current line number, both
are keys of the proven-formula mapping, and the formula at one of them is
an implication from the formula at the other to the current formula, in
either role order. -/
theorem C1_modus_ponens_valid_iff (proven : Proven) (line_num i j : Nat)
    (formula_str just : List Char) (cur : Formula)
    (hmp : just.take 2 = ("MP").toList)
    (hargs : parseMPArgs just = some (i, j)) :
    dispatchJust proven line_num formula_str just cur = .ok line_num cur ↔
      ∃ f_i f_j, i < line_num ∧ j < line_num ∧
        proven i = some f_i ∧ proven j = some f_j ∧
        (f_j = .imp f_i cur ∨ f_i = .imp f_j cur) := by
  have h1 : just ≠ ("Premise").toList := fun he => by
    rw [he] at hmp; exact absurd hmp (by decide)
  have h2 : just ≠ ("AX1").toList := fun he => by
    rw [he] at hmp; exact absurd hmp (by decide)
  have h3 : just ≠ ("AX2").toList := fun he => by
    rw [he] at hmp; exact absurd hmp (by decide)
  have h4 : just ≠ ("AX3").toList := fun he => by
    rw [he] at hmp; exact absurd hmp (by decide)
  unfold dispatchJust
  rw [if_neg h1, if_neg h2, if_neg h3, if_neg h4, if_pos hmp, hargs]
  show (match mpCheck proven line_num i j cur with
    | none => StepResult.ok line_num cur
    | some d => StepResult.fail (some line_num)
        (Reason.invalidJustification formula_str d)) = StepResult.ok line_num cur ↔ _
  cases hch : mpCheck proven line_num i j cur with
  | none =>
    refine iff_of_true rfl ((mpCheck_none_iff proven line_num i j cur).mp hch)
  | some d =>
    refine iff_of_false (fun hcontra => StepResult.noConfusion hcontra) (fun hr => ?_)
    rw [(mpCheck_none_iff proven line_num i j cur).mpr hr] at hch
    cases hch

/-- Witness for C1: with lines 1 = `A` and 2 = `(A -> B)` proven, the cited
pair given in swapped order `MP 2,1` still validates conclusion `B`. -/
theorem C1_modus_ponens_valid_iff_witness :
    dispatchJust
      (updateProven (updateProven emptyProven 1 (.var 'A')) 2
        (.imp (.var 'A') (.var 'B')))
      3 (("B").toList) (("MP 2,1").toList) (.var 'B') = .ok 3 (.var 'B') :=
  (C1_modus_ponens_valid_iff
      (updateProven (updateProven emptyProven 1 (.var 'A')) 2
        (.imp (.var 'A') (.var 'B')))
      3 2 1 (("B").toList) (("MP 2,1").toList) (.var 'B')
      (by decide) (by decide)).mpr
    ⟨Formula.imp (.var 'A') (.var 'B'), .var 'A', by omega, by omega, rfl, rfl,
      Or.inr rfl⟩

/-- Claim C2: `is_axiom2` accepts exactly the substitution instances of the
schema `(A -> (B -> C)) -> ((A -> B) -> (A -> C))`, with repeated
metavariables bound to structurally equal subformulas. -/
theorem C2_is_axiom2_iff_schema_instance (f : Formula) :
    is_axiom2 f = true ↔
      ∃ A B C, f = .imp (.imp A (.imp B C)) (.imp (.imp A B) (.imp A C)) := by
  constructor
  · intro h
    unfold is_axiom2 at h
    split at h
    · rename_i a b c p q r s
      simp only [Bool.and_eq_true, decide_eq_true_eq, Formula.imp.injEq] at h
      obtain ⟨⟨hp, hq⟩, hr, hs⟩ := h
      exact ⟨a, b, c, by rw [hp, hq, hr, hs]⟩
    all_goals exact Bool.noConfusion h
  · rintro ⟨A, B, C, rfl⟩
    simp [is_axiom2]

/-- Claim C3: `is_axiom3` accepts exactly the substitution instances of the
schema `(~B -> ~A) -> (A -> B)`: the right operand supplies candidates
`A`, `B` and the left operand must equal the implication from `~B` to
`~A` built from them. -/
theorem C3_is_axiom3_iff_schema_instance (f : Formula) :
    is_axiom3 f = true ↔
      ∃ A B, f = .imp (.imp (.neg B) (.neg A)) (.imp A B) := by
  constructor
  · intro h
    unfold is_axiom3 at h
    split at h
    · rename_i nb na a b
      simp only [decide_eq_true_eq, Formula.imp.injEq, Formula.neg.injEq] at h
      obtain ⟨hb, ha⟩ := h
      exact ⟨a, b, by rw [hb, ha]⟩
    all_goals exact Bool.noConfusion h
  · rintro ⟨A, B, rfl⟩
    simp [is_axiom3]

/-- Claim C8: each axiom matcher is a total boolean predicate on formula
terms, and it returns `false` on every input that lacks the minimum nested
implication (and, for axiom 3, negation) shape its guards test before any
operand is read. -/
theorem C8_matchers_return_false_without_shape (f : Formula) :
    (¬(∃ a b a2, f = .imp a (.imp b a2)) → is_axiom1 f = false) ∧
    (¬(∃ a b c p q r s,
        f = .imp (.imp a (.imp b c)) (.imp (.imp p q) (.imp r s))) →
      is_axiom2 f = false) ∧
    (¬(∃ nb na a b, f = .imp (.imp (.neg nb) (.neg na)) (.imp a b)) →
      is_axiom3 f = false) := by
  refine ⟨fun hn => ?_, fun hn => ?_, fun hn => ?_⟩
  · cases f with
    | var c => rfl
    | neg g => rfl
    | imp l r =>
      cases r with
      | var c => rfl
      | neg g => rfl
      | imp b a2 => exact absurd ⟨l, b, a2, rfl⟩ hn
  · cases f with
    | var c => rfl
    | neg g => rfl
    | imp l r =>
      cases l with
      | var c => rfl
      | neg g => rfl
      | imp a l2 =>
        cases l2 with
        | var c => rfl
        | neg g => rfl
        | imp b c =>
          cases r with
          | var c2 => rfl
          | neg g => rfl
          | imp r1 r2 =>
            cases r1 with
            | var c2 => rfl
            | neg g => rfl
            | imp p q =>
              cases r2 with
              | var c2 => rfl
              | neg g => rfl
              | imp u v => exact absurd ⟨a, b, c, p, q, u, v, rfl⟩ hn
  · cases f with
    | var c => rfl
    | neg g => rfl
    | imp l r =>
      cases l with
      | var c => rfl
      | neg g => rfl
      | imp l1 l2 =>
        cases l1 with
        | var c => rfl
        | imp u v => rfl
        | neg nb =>
          cases l2 with
          | var c => rfl
          | imp u v => rfl
          | neg na =>
            cases r with
            | var c => rfl
            | neg g => rfl
            | imp a b => exact absurd ⟨nb, na, a, b, rfl⟩ hn

/-- Witness for C8: a bare variable lacks all three shapes and every
matcher rejects it. -/
theorem C8_matchers_return_false_without_shape_witness :
    is_axiom1 (.var 'A') = false ∧ is_axiom2 (.var 'A') = false ∧
      is_axiom3 (.var 'A') = false :=
  ⟨(C8_matchers_return_false_without_shape (.var 'A')).1
      (by rintro ⟨a, b, a2, h⟩; cases h),
    (C8_matchers_return_false_without_shape (.var 'A')).2.1
      (by rintro ⟨a, b, c, p, q, r, s, h⟩; cases h),
    (C8_matchers_return_false_without_shape (.var 'A')).2.2
      (by rintro ⟨nb, na, a, b, h⟩; cases h)⟩

/-- Claim C4 (code bug): evaluating `parse` around the depth-zero split.
The right operand is read from `split_index + 3`, one character past the
two-character arrow, so `(A->B)` leaves an empty right substring and
raises, `(A-> B)` only works because the skipped character is the space,
and `(A->~B)` silently loses the negation. -/
theorem C4_parse_right_operand_skips_one_char :
    parse (("(A->B)").toList)
        = .error (.malformedImplication (("(A->B)").toList)) ∧
      parse (("(A-> B)").toList) = .ok (.imp (.var 'A') (.var 'B')) ∧
      parse (("(A->~B)").toList) = .ok (.imp (.var 'A') (.var 'B')) :=
  ⟨rfl, rfl, rfl⟩

/-- Claim C9 (code bug): whitespace insertion is not neutral.  Stripping at
each recursive call does make `~ A` parse like `~A`, but `( A -> B )`
parses to the implication of `A` and `B` while the whitespace-free
`(A->B)` raises, because the character right after `->` is skipped. -/
theorem C9_whitespace_insertion_changes_result :
    parse (("( A -> B )").toList) = .ok (.imp (.var 'A') (.var 'B')) ∧
      parse (("(A->B)").toList)
        = .error (.malformedImplication (("(A->B)").toList)) ∧
      parse (("~ A").toList) = .ok (.neg (.var 'A')) ∧
      parse (("~A").toList) = .ok (.neg (.var 'A')) :=
  ⟨rfl, rfl, rfl, rfl⟩

example : parse (("(A-> B)").toList) = .ok (.imp (.var 'A') (.var 'B')) := rfl
example : parse (("(A->B)").toList)
    = .error (.malformedImplication (("(A->B)").toList)) := rfl
example : parse (("(A->~B)").toList) = .ok (.imp (.var 'A') (.var 'B')) := rfl
example : parse (("( A -> B )").toList) = .ok (.imp (.var 'A') (.var 'B')) := rfl
example : parse (("~ A").toList) = .ok (.neg (.var 'A')) := rfl
example : parse (("((A -> (B -> C)) -> ((A -> B) -> (A -> C)))").toList)
    = .ok (.imp (.imp (.var 'A') (.imp (.var 'B') (.var 'C')))
        (.imp (.imp (.var 'A') (.var 'B')) (.imp (.var 'A') (.var 'C')))) := rfl
example : is_axiom2 (.imp (.imp (.var 'A') (.imp (.var 'B') (.var 'C')))
    (.imp (.imp (.var 'A') (.var 'B')) (.imp (.var 'A') (.var 'C')))) = true := rfl
example : is_axiom3 (.imp (.imp (.neg (.var 'B')) (.neg (.var 'A')))
    (.imp (.var 'A') (.var 'B'))) = true := rfl
example : is_axiom1 (.imp (.var 'A') (.imp (.var 'B') (.var 'A'))) = true := rfl
example : is_axiom1 (.imp (.var 'A') (.imp (.var 'B') (.var 'C'))) = false := rfl

lemma takeWhile_append_pivot (p : Char → Bool) (l1 l2 : List Char) (x : Char)
    (h1 : ∀ c ∈ l1, p c = true) (h2 : p x = false) :
    (l1 ++ x :: l2).takeWhile p = l1 ∧ (l1 ++ x :: l2).dropWhile p = x :: l2 := by
  induction l1 with
  | nil =>
    constructor
    · rw [List.nil_append, List.takeWhile_cons, if_neg (by simp [h2])]
    · rw [List.nil_append, List.dropWhile_cons, if_neg (by simp [h2])]
  | cons a t ih =>
    have ha : p a = true := h1 a (List.mem_cons_self a t)
    have ih2 := ih (fun c hc => h1 c (List.mem_cons_of_mem a hc))
    constructor
    · rw [List.cons_append, List.takeWhile_cons, if_pos (by simp [ha]), ih2.1]
    · rw [List.cons_append, List.dropWhile_cons, if_pos (by simp [ha]), ih2.2]

lemma dropWhile_append_all (p : Char → Bool) (l1 l2 : List Char)
    (h1 : ∀ c ∈ l1, p c = true) :
    (l1 ++ l2).dropWhile p = l2.dropWhile p := by
  induction l1 with
  | nil => rfl
  | cons a t ih =>
    have ha : p a = true := h1 a (List.mem_cons_self a t)
    rw [List.cons_append, List.dropWhile_cons, if_pos (by simp [ha])]
    exact ih (fun c hc => h1 c (List.mem_cons_of_mem a hc))

lemma all_of_dropWhile_eq_nil (p : Char → Bool) (l : List Char)
    (h : l.dropWhile p = []) : ∀ c ∈ l, p c = true := by
  induction l with
  | nil => intro c hc; cases hc
  | cons a t ih =>
    rw [List.dropWhile_cons] at h
    by_cases hp : p a = true
    · rw [if_pos (by simp [hp])] at h
      intro c hc
      rcases List.mem_cons.mp hc with hc1 | hc2
      · rw [hc1]; exact hp
      · exact ih h c hc2
    · rw [if_neg (by simp [hp])] at h
      cases h

lemma dropWhile_eq_self_of_head (p : Char → Bool) (a : Char) (l : List Char)
    (h : p a = false) : (a :: l).dropWhile p = a :: l := by
  rw [List.dropWhile_cons, if_neg (by simp [h])]

lemma digit_not_space (c : Char) (h : Char.isDigit c = true) : isPySpace c = false := by
  cases hs : isPySpace c with
  | false => rfl
  | true =>
    exfalso
    unfold isPySpace at hs
    simp only [Bool.or_eq_true, decide_eq_true_eq] at hs
    rcases hs with ((((h1 | h1) | h1) | h1) | h1) | h1 <;>
      (rw [h1] at h; exact absurd h (by decide))

lemma cons_ne_cons_of_ne_head (c d : Char) (cs ds : List Char) (h : c ≠ d) :
    c :: cs ≠ d :: ds := by
  intro he
  injection he with h1 h2
  exact h h1

lemma suffix_append_cases (l1 l2 r : List Char) (h : r <:+ l1 ++ l2) :
    r <:+ l2 ∨ ∃ w, w <:+ l1 ∧ w ≠ [] ∧ r = w ++ l2 := by
  induction l1 with
  | nil => exact Or.inl (by simpa using h)
  | cons a t ih =>
    rw [List.cons_append] at h
    rcases List.suffix_cons_iff.mp h with h1 | h1
    · exact Or.inr ⟨a :: t, List.suffix_refl _, by simp, by rw [h1, List.cons_append]⟩
    · rcases ih h1 with h2 | ⟨w, hw1, hw2, hw3⟩
      · exact Or.inl h2
      · exact Or.inr ⟨w, hw1.trans (List.suffix_cons a t), hw2, hw3⟩

lemma suffixJust_false_of_head (c : Char) (cs : List Char) (h : isPySpace c = false) :
    suffixJust (c :: cs) = false := by
  unfold suffixJust
  rw [List.takeWhile_cons, if_neg (by simp [h])]
  simp

lemma suffixJust_false_of_no_space (t : List Char)
    (h : ∀ c ∈ t, isPySpace c = false) : suffixJust t = false := by
  cases t with
  | nil => rfl
  | cons a l => exact suffixJust_false_of_head a l (h a (List.mem_cons_self a l))

lemma justSearchAux_eq_none (l : List Char)
    (h : ∀ t, t <:+ l → suffixJust t = false) : ∀ i, justSearchAux l i = none := by
  induction l with
  | nil => intro i; rfl
  | cons a l2 ih =>
    intro i
    unfold justSearchAux
    rw [if_neg (by simp [h (a :: l2) (List.suffix_refl _)])]
    exact ih (fun t ht => h t (ht.trans (List.suffix_cons a l2))) (i + 1)

lemma justSearchAux_sound (l : List Char) :
    ∀ i k tok, justSearchAux l i = some (k, tok) → matchesJustCore tok = true := by
  induction l with
  | nil => intro i k tok h; cases h
  | cons a l2 ih =>
    intro i k tok h
    unfold justSearchAux at h
    by_cases hs : suffixJust (a :: l2) = true
    · rw [if_pos hs] at h
      injection h with h1
      have h2 : tok = (a :: l2).dropWhile isPySpace := (Prod.mk.injEq _ _ _ _ ▸ h1).2.symm
      unfold suffixJust at hs
      rw [h2]
      exact (Bool.and_eq_true_iff.mp hs).2
    · rw [if_neg hs] at h
      exact ih (i + 1) k tok h

lemma mpScan_inv (t d1 r2 : List Char) (h : mpScan t = some (d1, r2)) :
    ∃ rest, t = 'M' :: 'P' :: rest ∧
      d1 = (rest.dropWhile isPySpace).takeWhile Char.isDigit ∧ d1 ≠ [] ∧
      (rest.dropWhile isPySpace).dropWhile Char.isDigit = ',' :: r2 ∧
      r2.takeWhile Char.isDigit ≠ [] := by
  unfold mpScan at h
  split at h
  · rename_i rest
    by_cases hd1 : (rest.dropWhile isPySpace).takeWhile Char.isDigit = []
    · rw [if_pos hd1] at h; cases h
    rw [if_neg hd1] at h
    split at h
    · rename_i r2' heq
      by_cases hd2 : r2'.takeWhile Char.isDigit = []
      · rw [if_pos hd2] at h; cases h
      rw [if_neg hd2] at h
      injection h with h1
      have hp := Prod.mk.injEq _ _ _ _ ▸ h1
      obtain ⟨hpa, hpb⟩ := hp
      refine ⟨rest, rfl, hpa.symm, ?_, ?_, ?_⟩
      · rw [← hpa]; exact hd1
      · rw [← hpb]; exact heq
      · rw [← hpb]; exact hd2
    · cases h
  · cases h

lemma mpShape_inv (t : List Char) (h : mpShape t = true) :
    ∃ d1 r2, mpScan t = some (d1, r2) ∧ r2.dropWhile Char.isDigit = [] := by
  unfold mpShape at h
  split at h
  · rename_i d1 r2 heq
    exact ⟨d1, r2, heq, of_decide_eq_true h⟩
  · exact Bool.noConfusion h

lemma parseMPArgs_ne_none_of_mpShape (t : List Char) (h : mpShape t = true) :
    parseMPArgs t ≠ none := by
  obtain ⟨d1, r2, hscan, -⟩ := mpShape_inv t h
  unfold parseMPArgs
  rw [hscan]
  intro hc
  exact Option.noConfusion hc

lemma mpScan_eq_none_of_head_ne (c : Char) (cs : List Char) (h : c ≠ 'M') :
    mpScan (c :: cs) = none := by
  unfold mpScan
  split
  all_goals first
    | rfl
    | (rename_i rest heq
       rw [List.cons.injEq] at heq
       exact absurd heq.1 h)

lemma matchesJustCore_head (tok : List Char) (h : matchesJustCore tok = true) :
    ∃ c cs, tok = c :: cs ∧ isPySpace c = false := by
  unfold matchesJustCore at h
  simp only [Bool.or_eq_true, decide_eq_true_eq] at h
  rcases h with (((h | h) | h) | h) | h
  · exact ⟨'P', ("remise").toList, by rw [h]; rfl, by decide⟩
  · exact ⟨'A', ("X1").toList, by rw [h]; rfl, by decide⟩
  · exact ⟨'A', ("X2").toList, by rw [h]; rfl, by decide⟩
  · exact ⟨'A', ("X3").toList, by rw [h]; rfl, by decide⟩
  · obtain ⟨d1, r2, hscan, -⟩ := mpShape_inv tok h
    obtain ⟨rest, htok, -⟩ := mpScan_inv tok d1 r2 hscan
    exact ⟨'M', 'P' :: rest, htok, by decide⟩

lemma lineNumMatch_eq_some_of (s ds r : List Char)
    (hs : s.dropWhile isPySpace = ds ++ '.' :: r) (hne : ds ≠ [])
    (hdig : ∀ c ∈ ds, Char.isDigit c = true) (hrest : r.dropWhile isPySpace ≠ []) :
    lineNumMatch s = some (digitsToNat ds, r.dropWhile isPySpace) := by
  have hpair := takeWhile_append_pivot Char.isDigit ds r '.' hdig (by decide)
  have ht : (s.dropWhile isPySpace).takeWhile Char.isDigit = ds := by
    rw [hs]; exact hpair.1
  have hd : (s.dropWhile isPySpace).dropWhile Char.isDigit = '.' :: r := by
    rw [hs]; exact hpair.2
  unfold lineNumMatch
  rw [ht, hd, if_neg hne]
  show (if r.dropWhile isPySpace = [] then none
    else some (digitsToNat ds, r.dropWhile isPySpace))
    = some (digitsToNat ds, r.dropWhile isPySpace)
  rw [if_neg hrest]

lemma lineNumMatch_eq_none_of (s : List Char)
    (hno : ¬∃ ds r, s.dropWhile isPySpace = ds ++ '.' :: r ∧ ds ≠ [] ∧
      (∀ c ∈ ds, Char.isDigit c = true) ∧ r.dropWhile isPySpace ≠ []) :
    lineNumMatch s = none := by
  unfold lineNumMatch
  by_cases h1 : (s.dropWhile isPySpace).takeWhile Char.isDigit = []
  · rw [if_pos h1]
  · rw [if_neg h1]
    cases heq : (s.dropWhile isPySpace).dropWhile Char.isDigit with
    | nil => rfl
    | cons x r2 =>
      by_cases hx : x = '.'
      · subst hx
        show (if r2.dropWhile isPySpace = [] then none
          else some (digitsToNat ((s.dropWhile isPySpace).takeWhile Char.isDigit),
            r2.dropWhile isPySpace)) = none
        by_cases h2 : r2.dropWhile isPySpace = []
        · rw [if_pos h2]
        · exfalso
          apply hno
          refine ⟨(s.dropWhile isPySpace).takeWhile Char.isDigit, r2, ?_, h1, ?_, h2⟩
          · conv_lhs => rw [← List.takeWhile_append_dropWhile Char.isDigit
              (s.dropWhile isPySpace)]
            rw [heq]
          · intro c hc; exact List.mem_takeWhile_imp hc
      · split
        all_goals first
          | rfl
          | (rename_i r2x heqx
             rw [List.cons.injEq] at heqx
             exact absurd heqx.1 hx)

lemma lineNumMatch_none_iff (s : List Char) :
    lineNumMatch s = none ↔ ¬∃ ds r, s.dropWhile isPySpace = ds ++ '.' :: r ∧
      ds ≠ [] ∧ (∀ c ∈ ds, Char.isDigit c = true) ∧ r.dropWhile isPySpace ≠ [] := by
  constructor
  · intro hnone
    rintro ⟨ds, r, hdecomp, hne, hdig, hrest⟩
    rw [lineNumMatch_eq_some_of s ds r hdecomp hne hdig hrest] at hnone
    cases hnone
  · exact lineNumMatch_eq_none_of s

lemma justSearch_none_of_core (tok : List Char) (h : matchesJustCore tok = true) :
    justSearch tok = none := by
  unfold matchesJustCore at h
  simp only [Bool.or_eq_true, decide_eq_true_eq] at h
  rcases h with (((h | h) | h) | h) | h
  · rw [h]; rfl
  · rw [h]; rfl
  · rw [h]; rfl
  · rw [h]; rfl
  · obtain ⟨d1, r2, hscan, hend⟩ := mpShape_inv tok h
    obtain ⟨rest, htok, hd1eq, hd1ne, hsplit, hd2ne⟩ := mpScan_inv tok d1 r2 hscan
    subst htok
    have hr : rest.dropWhile isPySpace = d1 ++ ',' :: r2 := by
      conv_lhs => rw [← List.takeWhile_append_dropWhile Char.isDigit
        (rest.dropWhile isPySpace)]
      rw [← hd1eq, hsplit]
    have hrns : ∀ c ∈ rest.dropWhile isPySpace, isPySpace c = false := by
      intro c hc
      rw [hr] at hc
      rcases List.mem_append.mp hc with hcd | hcr
      · refine digit_not_space c ?_
        rw [hd1eq] at hcd
        exact List.mem_takeWhile_imp hcd
      · rcases List.mem_cons.mp hcr with hcc | hcr2
        · rw [hcc]; rfl
        · exact digit_not_space c (all_of_dropWhile_eq_nil Char.isDigit r2 hend c hcr2)
    obtain ⟨c0, cs0, hhead, hcdig⟩ :
        ∃ c0 cs0, rest.dropWhile isPySpace = c0 :: cs0 ∧ Char.isDigit c0 = true := by
      cases hd1c : d1 with
      | nil => exact absurd hd1c hd1ne
      | cons c0 cs0 =>
        refine ⟨c0, cs0 ++ ',' :: r2, by rw [hr, hd1c, List.cons_append], ?_⟩
        refine List.mem_takeWhile_imp (p := Char.isDigit)
          (l := rest.dropWhile isPySpace) ?_
        rw [← hd1eq, hd1c]
        exact List.mem_cons_self c0 cs0
    unfold justSearch
    apply justSearchAux_eq_none
    intro t ht
    rcases List.suffix_cons_iff.mp ht with h1 | h1
    · rw [h1]; exact suffixJust_false_of_head _ _ (by decide)
    rcases List.suffix_cons_iff.mp h1 with h2 | h2
    · rw [h2]; exact suffixJust_false_of_head _ _ (by decide)
    have hsuf : t <:+ rest.takeWhile isPySpace ++ rest.dropWhile isPySpace := by
      rw [List.takeWhile_append_dropWhile]; exact h2
    rcases suffix_append_cases (rest.takeWhile isPySpace) (rest.dropWhile isPySpace)
        t hsuf with h3 | ⟨w, hw1, hw2, hw3⟩
    · exact suffixJust_false_of_no_space t (fun c hc => hrns c (h3.subset hc))
    · rw [hw3]
      unfold suffixJust
      have hwall : ∀ c ∈ w, isPySpace c = true := fun c hc =>
        List.mem_takeWhile_imp (hw1.subset hc)
      rw [dropWhile_append_all isPySpace w _ hwall]
      rw [hhead, dropWhile_eq_self_of_head isPySpace c0 cs0 (digit_not_space c0 hcdig)]
      have hcne : ∀ d : Char, Char.isDigit d = false → c0 ≠ d := by
        intro d hd he
        rw [he] at hcdig
        rw [hcdig] at hd
        cases hd
      have hmjc : matchesJustCore (c0 :: cs0) = false := by
        unfold matchesJustCore
        have e1 : decide ((c0 :: cs0) = ("Premise").toList) = false :=
          decide_eq_false (cons_ne_cons_of_ne_head c0 'P' cs0 _ (hcne 'P' (by decide)))
        have e2 : decide ((c0 :: cs0) = ("AX1").toList) = false :=
          decide_eq_false (cons_ne_cons_of_ne_head c0 'A' cs0 _ (hcne 'A' (by decide)))
        have e3 : decide ((c0 :: cs0) = ("AX2").toList) = false :=
          decide_eq_false (cons_ne_cons_of_ne_head c0 'A' cs0 _ (hcne 'A' (by decide)))
        have e4 : decide ((c0 :: cs0) = ("AX3").toList) = false :=
          decide_eq_false (cons_ne_cons_of_ne_head c0 'A' cs0 _ (hcne 'A' (by decide)))
        have e5 : mpShape (c0 :: cs0) = false := by
          unfold mpShape
          rw [mpScan_eq_none_of_head_ne c0 cs0 (hcne 'M' (by decide))]
        rw [e1, e2, e3, e4, e5]
        rfl
      rw [hmjc, Bool.and_false]

lemma dispatchJust_fail_line (proven : Proven) (n : Nat) (fs just : List Char)
    (cur : Formula) (o : Option Nat) (r : Reason)
    (h : dispatchJust proven n fs just cur = .fail o r) : o = some n := by
  unfold dispatchJust at h
  repeat' split at h
  all_goals first
    | exact StepResult.noConfusion h
    | (injection h with h1 h2; exact h1.symm)

lemma dispatchJust_ne_crashed (proven : Proven) (n : Nat) (fs just : List Char)
    (cur : Formula) (hc : matchesJustCore just = true) :
    dispatchJust proven n fs just cur ≠ .crashed := by
  intro h
  unfold dispatchJust at h
  by_cases h1 : just = ("Premise").toList
  · rw [if_pos h1] at h; exact StepResult.noConfusion h
  rw [if_neg h1] at h
  by_cases h2 : just = ("AX1").toList
  · rw [if_pos h2] at h
    split at h <;> exact StepResult.noConfusion h
  rw [if_neg h2] at h
  by_cases h3 : just = ("AX2").toList
  · rw [if_pos h3] at h
    split at h <;> exact StepResult.noConfusion h
  rw [if_neg h3] at h
  by_cases h4 : just = ("AX3").toList
  · rw [if_pos h4] at h
    split at h <;> exact StepResult.noConfusion h
  rw [if_neg h4] at h
  have hmp : mpShape just = true := by
    unfold matchesJustCore at hc
    simp only [Bool.or_eq_true, decide_eq_true_eq] at hc
    rcases hc with (((hc | hc) | hc) | hc) | hc
    · exact absurd hc h1
    · exact absurd hc h2
    · exact absurd hc h3
    · exact absurd hc h4
    · exact hc
  by_cases h5 : just.take 2 = ("MP").toList
  · rw [if_pos h5] at h
    cases hargs : parseMPArgs just with
    | none => exact absurd hargs (parseMPArgs_ne_none_of_mpShape just hmp)
    | some p =>
      obtain ⟨i, j⟩ := p
      rw [hargs] at h
      have h6 : (match mpCheck proven n i j cur with
        | none => StepResult.ok n cur
        | some d => StepResult.fail (some n) (Reason.invalidJustification fs d))
          = StepResult.crashed := h
      cases hm : mpCheck proven n i j cur with
      | none => rw [hm] at h6; exact StepResult.noConfusion h6
      | some d => rw [hm] at h6; exact StepResult.noConfusion h6
  · rw [if_neg h5] at h
    exact StepResult.noConfusion h

lemma processLine_ne_crashed (proven : Proven) (raw : List Char) :
    processLine proven raw ≠ .crashed := by
  intro h
  unfold processLine at h
  by_cases h0 : pstrip raw = [] ∨ (pstrip raw).head? = some '#'
  · rw [if_pos h0] at h; exact StepResult.noConfusion h
  rw [if_neg h0] at h
  cases hln : lineNumMatch (pstrip raw) with
  | none => rw [hln] at h; exact StepResult.noConfusion h
  | some p =>
    obtain ⟨n, rest⟩ := p
    rw [hln] at h
    have h2 : (match justSearch rest with
      | none => StepResult.fail (some n) (Reason.malformedJustification (pstrip raw))
      | some (start, just) =>
        match parse (pstrip (List.take start rest)) with
        | Except.error e => StepResult.fail (some n) (Reason.syntaxError e)
        | Except.ok cur =>
          dispatchJust proven n (pstrip (List.take start rest)) just cur)
        = StepResult.crashed := h
    cases hjs : justSearch rest with
    | none => rw [hjs] at h2; exact StepResult.noConfusion h2
    | some q =>
      obtain ⟨start, just⟩ := q
      rw [hjs] at h2
      have h3 : (match parse (pstrip (List.take start rest)) with
        | Except.error e => StepResult.fail (some n) (Reason.syntaxError e)
        | Except.ok cur =>
          dispatchJust proven n (pstrip (List.take start rest)) just cur)
          = StepResult.crashed := h2
      cases hp : parse (pstrip (rest.take start)) with
      | error e => rw [hp] at h3; exact StepResult.noConfusion h3
      | ok cur =>
        rw [hp] at h3
        exact dispatchJust_ne_crashed proven n (pstrip (rest.take start)) just cur
          (justSearchAux_sound rest 0 start just hjs) h3

lemma processLine_fail_none_inv (proven : Proven) (raw : List Char) (r : Reason)
    (h : processLine proven raw = .fail none r) :
    lineNumMatch (pstrip raw) = none ∧ r = .invalidLineFormat (pstrip raw) := by
  unfold processLine at h
  by_cases h0 : pstrip raw = [] ∨ (pstrip raw).head? = some '#'
  · rw [if_pos h0] at h; exact StepResult.noConfusion h
  rw [if_neg h0] at h
  cases hln : lineNumMatch (pstrip raw) with
  | none =>
    rw [hln] at h
    have h2 : StepResult.fail none (Reason.invalidLineFormat (pstrip raw))
        = StepResult.fail none r := h
    injection h2 with ha hb
    exact ⟨rfl, hb.symm⟩
  | some p =>
    obtain ⟨n, rest⟩ := p
    rw [hln] at h
    have h2 : (match justSearch rest with
      | none => StepResult.fail (some n) (Reason.malformedJustification (pstrip raw))
      | some (start, just) =>
        match parse (pstrip (List.take start rest)) with
        | Except.error e => StepResult.fail (some n) (Reason.syntaxError e)
        | Except.ok cur =>
          dispatchJust proven n (pstrip (List.take start rest)) just cur)
        = StepResult.fail none r := h
    cases hjs : justSearch rest with
    | none =>
      rw [hjs] at h2
      have h3 : StepResult.fail (some n) (Reason.malformedJustification (pstrip raw))
          = StepResult.fail none r := h2
      injection h3 with ha hb
      exact Option.noConfusion ha
    | some q =>
      obtain ⟨start, just⟩ := q
      rw [hjs] at h2
      have h3 : (match parse (pstrip (List.take start rest)) with
        | Except.error e => StepResult.fail (some n) (Reason.syntaxError e)
        | Except.ok cur =>
          dispatchJust proven n (pstrip (List.take start rest)) just cur)
          = StepResult.fail none r := h2
      cases hp : parse (pstrip (rest.take start)) with
      | error e =>
        rw [hp] at h3
        have h4 : StepResult.fail (some n) (Reason.syntaxError e)
            = StepResult.fail none r := h3
        injection h4 with ha hb
        exact Option.noConfusion ha
      | ok cur =>
        rw [hp] at h3
        exact Option.noConfusion
          (dispatchJust_fail_line proven n (pstrip (rest.take start)) just cur none r h3)

lemma runProof_cons (proven : Proven) (l : List Char) (ls : List (List Char)) :
    runProof proven (l :: ls) =
      match processLine proven l with
      | .skip => runProof proven ls
      | .ok n f => runProof (updateProven proven n f) ls
      | .fail o r => (proven, .failed o r)
      | .crashed => (proven, .crashed) := rfl

lemma runProof_sound (lines : List (List Char)) :
    ∀ proven : Proven, (runProof proven lines).2 ≠ .crashed ∧
      ∀ r, (runProof proven lines).2 = .failed none r →
        ∃ t, r = .invalidLineFormat t := by
  induction lines with
  | nil =>
    intro proven
    exact ⟨fun h => Verdict.noConfusion h, fun r h => Verdict.noConfusion h⟩
  | cons l ls ih =>
    intro proven
    rw [runProof_cons]
    cases hp : processLine proven l with
    | skip => exact ih proven
    | ok n f => exact ih (updateProven proven n f)
    | fail o r =>
      refine ⟨fun h => Verdict.noConfusion h, fun r2 h => ?_⟩
      have h2 : Verdict.failed o r = Verdict.failed none r2 := h
      injection h2 with ha hb
      subst ha
      subst hb
      exact ⟨pstrip l, (processLine_fail_none_inv proven l r hp).2⟩
    | crashed => exact absurd hp (processLine_ne_crashed proven l)

/-- Claim C5 (amended): verification is a pure total function from the
ordered proof lines to a single terminal verdict and never raises (in
particular the unconditional `.groups()` call on the inner `MP` re-match,
modelled as `Verdict.crashed`, is unreachable); every failure verdict
carries the failing line number except the invalid-line-format failure,
whose line has no parseable number and which identifies the line by its
text instead. -/
theorem C5_verdict_total_no_exception (lines : List (List Char)) :
    verify_proof lines ≠ .crashed ∧
      ∀ r, verify_proof lines = .failed none r → ∃ t, r = .invalidLineFormat t := by
  unfold verify_proof
  exact runProof_sound lines emptyProven

/-- Counterexample to C5 as stated: the invalid-line-format failure returns
a `Failed` verdict that carries no line number at all. -/
theorem C5_failure_without_line_number :
    verify_proof [("foo").toList]
      = .failed none (.invalidLineFormat (("foo").toList)) := rfl

/-- Claim C6 (amended): a non-blank, non-comment line fails with the
invalid-line-format error exactly when its text is not of the form
`digits '.' remainder` with a nonempty digit run and a nonempty remainder;
no positivity check is made, so the digit run `0` passes. -/
theorem C6_format_error_iff_no_number_shape (proven : Proven) (raw : List Char)
    (hnb : pstrip raw ≠ []) (hnc : (pstrip raw).head? ≠ some '#') :
    processLine proven raw = .fail none (.invalidLineFormat (pstrip raw)) ↔
      ¬∃ ds r, (pstrip raw).dropWhile isPySpace = ds ++ '.' :: r ∧ ds ≠ [] ∧
        (∀ c ∈ ds, Char.isDigit c = true) ∧ r.dropWhile isPySpace ≠ [] := by
  rw [← lineNumMatch_none_iff]
  constructor
  · intro h
    exact (processLine_fail_none_inv proven raw _ h).1
  · intro hnone
    unfold processLine
    rw [if_neg (by push_neg; exact ⟨hnb, hnc⟩), hnone]

/-- Witness for C6: a line with no leading number at all takes the
invalid-line-format failure. -/
theorem C6_format_error_iff_no_number_shape_witness :
    processLine emptyProven (("foo").toList)
      = .fail none (.invalidLineFormat (pstrip (("foo").toList))) := by
  refine (C6_format_error_iff_no_number_shape emptyProven (("foo").toList)
    (by decide) (by decide)).mpr ?_
  rintro ⟨ds, r, hd, hne, hdig, -⟩
  have he : (pstrip (("foo").toList)).dropWhile isPySpace
      = 'f' :: 'o' :: 'o' :: [] := rfl
  rw [he] at hd
  cases ds with
  | nil => exact hne rfl
  | cons d ds2 =>
    rw [List.cons_append] at hd
    injection hd with h1 h2
    have hdg := hdig d (List.mem_cons_self d ds2)
    rw [← h1] at hdg
    exact absurd hdg (by decide)

/-- Counterexample to C6 as stated: the line number `0` is not a positive
integer, yet `0. A Premise` verifies successfully instead of failing with
a format error. -/
theorem C6_zero_line_number_accepted :
    verify_proof [("0. A Premise").toList] = .valid := rfl

/-- Claim C7 (amended): during one proof the proven-formula mapping only
ever gains keys — a key once present is present at every later step — but
a later valid line that reuses an existing line number overwrites the
earlier binding, because recording is a dict assignment with no duplicate
check. -/
theorem C7_proven_keys_monotone (lines : List (List Char)) :
    ∀ (proven : Proven) (k : Nat), (proven k).isSome = true →
      ((runProof proven lines).1 k).isSome = true := by
  induction lines with
  | nil => intro proven k h; exact h
  | cons l ls ih =>
    intro proven k h
    rw [runProof_cons]
    cases hp : processLine proven l with
    | skip => exact ih proven k h
    | ok n f =>
      refine ih (updateProven proven n f) k ?_
      unfold updateProven
      by_cases hk : k = n
      · rw [if_pos hk]; rfl
      · rw [if_neg hk]; exact h
    | fail o r => exact h
    | crashed => exact h

/-- Witness for C7: a key bound before the run is still bound after it. -/
theorem C7_proven_keys_monotone_witness :
    ((runProof (updateProven emptyProven 5 (.var 'C'))
      [("1. B Premise").toList]).1 5).isSome = true :=
  C7_proven_keys_monotone [("1. B Premise").toList]
    (updateProven emptyProven 5 (.var 'C')) 5 rfl

/-- Counterexample to C7 as stated: two valid `Premise` lines both numbered
1 are accepted, and the second overwrites the binding of line 1 from `A`
to `B`, so the mapping after the first step is not a sub-mapping of the
mapping after the second. -/
theorem C7_duplicate_line_number_overwrites :
    processLine emptyProven (("1. A Premise").toList) = .ok 1 (.var 'A') ∧
      processLine (updateProven emptyProven 1 (.var 'A')) (("1. B Premise").toList)
        = .ok 1 (.var 'B') ∧
      (runProof emptyProven [("1. A Premise").toList]).1 1 = some (.var 'A') ∧
      (runProof emptyProven [("1. A Premise").toList, ("1. B Premise").toList]).1 1
        = some (.var 'B') ∧
      verify_proof [("1. A Premise").toList, ("1. B Premise").toList] = .valid ∧
      Formula.var 'B' ≠ Formula.var 'A' :=
  ⟨rfl, rfl, rfl, rfl, rfl, by decide⟩

/-- Claim C10: a non-blank, non-comment line that is just a line number,
a dot, whitespace and a bare justification token (any of the five
recognized shapes) carries no formula text, and the justification pattern —
which demands a whitespace character before the token — cannot match, so
the verifier fails with the malformed-justification format error at that
line's number. -/
theorem C10_justification_only_line_fails (proven : Proven) (raw ds tok : List Char)
    (hline : pstrip raw = ds ++ '.' :: ' ' :: tok) (hne : ds ≠ [])
    (hdig : ∀ c ∈ ds, Char.isDigit c = true) (hcore : matchesJustCore tok = true) :
    processLine proven raw
      = .fail (some (digitsToNat ds)) (.malformedJustification (pstrip raw)) := by
  obtain ⟨c0, cs0, htok, hc0⟩ := matchesJustCore_head tok hcore
  obtain ⟨d, ds2, hds⟩ : ∃ d ds2, ds = d :: ds2 := by
    cases ds with
    | nil => exact absurd rfl hne
    | cons d ds2 => exact ⟨d, ds2, rfl⟩
  have hddig : Char.isDigit d = true :=
    hdig d (by rw [hds]; exact List.mem_cons_self d ds2)
  have htne : pstrip raw ≠ [] := by
    rw [hline, hds, List.cons_append]
    simp
  have hthead : (pstrip raw).head? = some d := by
    rw [hline, hds, List.cons_append]
    rfl
  have htnc : (pstrip raw).head? ≠ some '#' := by
    rw [hthead]
    intro he
    injection he with he2
    rw [he2] at hddig
    exact absurd hddig (by decide)
  have hdw : (pstrip raw).dropWhile isPySpace = pstrip raw := by
    rw [hline, hds, List.cons_append]
    exact dropWhile_eq_self_of_head isPySpace d _ (digit_not_space d hddig)
  have hdtok : (' ' :: tok).dropWhile isPySpace = tok := by
    rw [List.dropWhile_cons, if_pos (by decide), htok]
    exact dropWhile_eq_self_of_head isPySpace c0 cs0 hc0
  have hlnm : lineNumMatch (pstrip raw) = some (digitsToNat ds, tok) := by
    have hsome := lineNumMatch_eq_some_of (pstrip raw) ds (' ' :: tok)
      (by rw [hdw, hline]) hne hdig (by rw [hdtok, htok]; simp)
    rw [hdtok] at hsome
    exact hsome
  unfold processLine
  rw [if_neg (by push_neg; exact ⟨htne, htnc⟩), hlnm]
  show (match justSearch tok with
    | none => StepResult.fail (some (digitsToNat ds))
        (Reason.malformedJustification (pstrip raw))
    | some (start, just) =>
      match parse (pstrip (List.take start tok)) with
      | Except.error e => StepResult.fail (some (digitsToNat ds)) (Reason.syntaxError e)
      | Except.ok cur =>
        dispatchJust proven (digitsToNat ds) (pstrip (List.take start tok)) just cur)
    = StepResult.fail (some (digitsToNat ds)) (Reason.malformedJustification (pstrip raw))
  rw [justSearch_none_of_core tok hcore]

/-- Witness for C10: the formula-free line `1. Premise` fails with the
malformed-justification error at line 1. -/
theorem C10_justification_only_line_fails_witness :
    processLine emptyProven (("1. Premise").toList)
      = .fail (some 1) (.malformedJustification (("1. Premise").toList)) := by
  have h := C10_justification_only_line_fails emptyProven (("1. Premise").toList)
    (("1").toList) (("Premise").toList) (by decide) (by decide) (by decide) (by decide)
  exact h.trans (by decide)

end PropProof
